import Mathlib

/-!
Verification of the kubefed sync controller core
(pkg/controller/sync/controller.go).

The Go controller is shallowly embedded: each controller method becomes a
Lean function over an explicit environment `Env` that supplies the results
of the external collaborators (informer caches, cluster registry, the host
store client, and the dispatcher `Wait()` joins, which execute outside the
controller).  Dispatched operations are recorded as values instead of being
executed, so theorems can talk about exactly which operations a reconcile
round issues.
-/

namespace SyncController

/-- util.ReconciliationStatus: the four-valued return contract of reconcile. -/
inductive ReconciliationStatus
  | allOK
  | error
  | notSynced
  | needsRecheck
deriving DecidableEq

/-- Per-cluster propagation status codes recorded on the dispatcher
(status.ClusterNotReady, status.CachedRetrievalFailed, status.WaitingForRemoval). -/
inductive PropagationStatus
  | clusterNotReady
  | cachedRetrievalFailed
  | waitingForRemoval
deriving DecidableEq

/-- Aggregate reason passed to status.SetPropagationStatus. -/
inductive AggregateReason
  | clusterRetrievalFailed
  | computePlacementFailed
  | aggregateSuccess
deriving DecidableEq

/-- The kinds of operations the managed/unmanaged dispatchers can record. -/
inductive OpType
  | create
  | update
  | delete
  | removeManagedLabel
deriving DecidableEq

/-- One recorded dispatcher operation against a named cluster. -/
structure DispatchOp where
  cluster : String
  op : OpType
deriving DecidableEq

/-- A member cluster: its name and the result of util.IsClusterReady on its status. -/
structure Cluster where
  name : String
  ready : Bool
deriving DecidableEq

/-- The cached copy of the target object in one member cluster.  Only the
fields the controller inspects are modelled: the object name and whether
GetDeletionTimestamp() is non-nil. -/
structure ClusterObj where
  name : String
  hasDeletionTimestamp : Bool
deriving DecidableEq

/-- FinalizerSyncController constant from the source. -/
def FinalizerSyncController : String := "kubefed.k8s.io/sync-controller"

/-- OrphanManagedResources annotation key constant from the source. -/
def OrphanManagedResources : String := "kubefed.k8s.io/orphan"

/-- Go map indexing m[k] on a string map: the bound value, or "" when the
key is absent. -/
def annotationValue (m : List (String × String)) (k : String) : String :=
  match m.find? (fun p => p.1 == k) with
  | some p => p.2
  | none => ""

/-- The host-store object as seen by the status aggregator: an identity for
the base resource version plus whether the current reconcile's status map
has been merged into it (status.SetPropagationStatus mutates the object). -/
structure StatusObj where
  gen : Nat
  merged : Bool
deriving DecidableEq

/-- Outcome of one hostClusterClient.UpdateStatus call. -/
inductive WriteOutcome
  | success
  | conflict
  | failure
deriving DecidableEq

/-- External outcomes of the status-update path, per attempt index:
whether status.SetPropagationStatus fails, the UpdateStatus outcome, and
the result of the conflict-path re-fetch (hostClusterClient.Get). -/
structure StatusEnv where
  setStatusFails : Nat → Bool
  write : Nat → WriteOutcome
  refetch : Nat → Except Unit StatusObj

/-- wait.PollImmediate interval in setPropagationStatus (1 second). -/
def statusPollIntervalSeconds : Nat := 1

/-- wait.PollImmediate timeout in setPropagationStatus (5 seconds). -/
def statusPollTimeoutSeconds : Nat := 5

/-- Maximum number of mutate-and-write attempts of the poll loop: the
immediate attempt plus one per interval tick inside the timeout window. -/
def maxStatusAttempts : Nat := statusPollTimeoutSeconds / statusPollIntervalSeconds + 1

/-- The body of setPropagationStatus's wait.PollImmediate loop.  Each
attempt merges the status map into the current in-memory object, writes it
via UpdateStatus, and on a conflict re-fetches the latest object before the
next attempt.  Returns the reconciliation status together with the list of
base objects each attempt merged into (attempt i merged into entry i). -/
def setPropagationStatusAux (env : StatusEnv) :
    Nat → Nat → StatusObj → ReconciliationStatus × List StatusObj
  | 0, _, _ => (.error, [])
  | fuel + 1, n, obj =>
    if env.setStatusFails n then (.error, [obj])
    else
      match env.write n with
      | .success => (.allOK, [obj])
      | .failure => (.error, [obj])
      | .conflict =>
        match env.refetch n with
        | .error _ => (.error, [obj])
        | .ok latest =>
          let r := setPropagationStatusAux env fuel (n + 1) latest
          (r.1, obj :: r.2)

/-- setPropagationStatus: mutate-and-write with conflict retry, bounded by
the 1s/5s poll window.  Exhausting the window (wait.ErrWaitTimeout), a
set-status failure, a non-conflict write failure, or a re-fetch failure all
yield StatusError; a successful write yields StatusAllOK. -/
def setPropagationStatus (env : StatusEnv) (obj : StatusObj) :
    ReconciliationStatus × List StatusObj :=
  setPropagationStatusAux env maxStatusAttempts 0 obj

/-- The federated resource as the controller sees it: metadata consulted by
the deletion protocol, the placement computation, the host-cluster
namespace-companion test, and the status object handed to the aggregator. -/
structure FedResource where
  finalizers : List String
  annotations : Option (List (String × String))
  hasDeletionTimestamp : Bool
  computePlacement : List Cluster → Except Unit (List String)
  isNamespaceInHostCluster : ClusterObj → Bool
  obj : StatusObj

/-- Result of fedAccessor.FederatedResource: the resolved resource (nil is
none) and the possibleOrphan signal. -/
structure AccessorResult where
  fedResource : Option FedResource
  possibleOrphan : Bool

/-- The external collaborators of one reconcile call: informer sync state,
the cluster registry, per-cluster cached object lookup, the accessor, the
host client, and the outcomes of the three dispatcher variants' Wait()
joins (dispatch executes outside the controller). -/
structure Env where
  clustersSynced : Bool
  accessorSynced : Bool
  readyClusters : Except Unit (List Cluster)
  targetStoreSynced : List Cluster → Bool
  accessor : Except Unit AccessorResult
  clusters : Except Unit (List Cluster)
  cached : String → Except Unit (Option ClusterObj)
  managedWaitOk : Bool
  managedWaitTimeout : Bool
  unmanagedWaitOk : Bool
  unmanagedWaitTimeout : Bool
  checkWaitOk : Bool
  checkWaitTimeout : Bool
  updateVersionsFails : Bool
  hostUpdateFails : Bool
  statusEnv : StatusEnv

/-- isSynced: cluster list synced, accessor synced, ready clusters
retrievable, and the target store synced for the ready clusters. -/
def isSynced (env : Env) : Bool :=
  env.clustersSynced && env.accessorSynced &&
    (match env.readyClusters with
     | .error _ => false
     | .ok clusters => env.targetStoreSynced clusters)

/-- Appends the lists produced for each element, in order (the shape of the
per-cluster loops: each iteration appends its recorded operations). -/
def concatMap {β α : Type} (f : β → List α) : List β → List α
  | [] => []
  | b :: l => f b ++ concatMap f l

/-- Whether an Except value is an error. -/
def exceptIsError {ε α : Type} : Except ε α → Bool
  | .error _ => true
  | .ok _ => false

/-- The per-cluster decision of syncToClusters's loop body: the recorded
operations and status entries for one cluster, given the selected set. -/
def syncDecide (env : Env) (fr : FedResource) (sel : List String) (c : Cluster) :
    List DispatchOp × List (String × PropagationStatus) :=
  let selectedCluster := sel.contains c.name
  if !c.ready then
    if selectedCluster then ([], [(c.name, .clusterNotReady)]) else ([], [])
  else
    match env.cached c.name with
    | .error _ => ([], [(c.name, .cachedRetrievalFailed)])
    | .ok clusterObj =>
      if !selectedCluster then
        match clusterObj with
        | none => ([], [])
        | some obj =>
          if obj.hasDeletionTimestamp then ([], [(c.name, .waitingForRemoval)])
          else if fr.isNamespaceInHostCluster obj then
            ([⟨c.name, .removeManagedLabel⟩], [])
          else ([⟨c.name, .delete⟩], [])
      else
        match clusterObj with
        | none => ([⟨c.name, .create⟩], [])
        | some _ => ([⟨c.name, .update⟩], [])

/-- Observable outcome of syncToClusters: the reconciliation status, the
operations recorded on the managed dispatcher, the per-cluster status
entries, the RecordError reason codes, the aggregate reason handed to the
status aggregator, whether ComputePlacement was invoked, and the status
aggregator's merge trace. -/
structure SyncOutcome where
  status : ReconciliationStatus
  ops : List DispatchOp
  statusRecords : List (String × PropagationStatus)
  recordedErrors : List String
  aggregateReason : AggregateReason
  placementAttempted : Bool
  statusTrace : List StatusObj

/-- syncToClusters: retrieve clusters, compute placement, decide one action
per cluster, join the dispatch (a timeout is recorded as a propagation
error), write versions best-effort (UpdateVersions failure is only logged),
and finish through setPropagationStatus with reason AggregateSuccess. -/
def syncToClusters (env : Env) (fr : FedResource) : SyncOutcome :=
  match env.clusters with
  | .error _ =>
    let sp := setPropagationStatus env.statusEnv fr.obj
    ⟨sp.1, [], [], ["ClusterRetrievalFailed"], .clusterRetrievalFailed, false, sp.2⟩
  | .ok cs =>
    match fr.computePlacement cs with
    | .error _ =>
      let sp := setPropagationStatus env.statusEnv fr.obj
      ⟨sp.1, [], [], ["ComputePlacementFailed"], .computePlacementFailed, true, sp.2⟩
    | .ok sel =>
      let ops := concatMap (fun c => (syncDecide env fr sel c).1) cs
      let records := concatMap (fun c => (syncDecide env fr sel c).2) cs
      let errs := if env.managedWaitTimeout then ["OperationTimeoutError"] else []
      let sp := setPropagationStatus env.statusEnv fr.obj
      ⟨sp.1, ops, records, errs, .aggregateSuccess, true, sp.2⟩

/-- Error cases of handleDeletionInClusters, in the order the source checks
them after the dispatch join. -/
inductive HandleErr
  | getClustersFailed
  | timeout
  | retrievalFailure
  | notReady
deriving DecidableEq

/-- Observable outcome of handleDeletionInClusters: the (ok, error) result,
the operations recorded on the unmanaged dispatcher, and the state the
deletion handler closure accumulated (the remaining-clusters list). -/
structure HandleOutcome where
  result : Except HandleErr Bool
  ops : List DispatchOp
  remaining : List String

/-- The loop body of handleDeletionInClusters for one cluster: skip unready
clusters and cache misses, record a retrieval failure on cache errors, and
otherwise run the provided deletion handler. -/
def hdContribution (env : Env)
    (f : String → ClusterObj → List DispatchOp × List String) (c : Cluster) :
    List DispatchOp × List String :=
  if c.ready then
    match env.cached c.name with
    | .error _ => ([], [])
    | .ok none => ([], [])
    | .ok (some obj) => f c.name obj
  else ([], [])

/-- handleDeletionInClusters: run the deletion handler over every ready
cluster with a cached copy, join the unmanaged dispatch, then fail on a
timeout, any cache retrieval failure, or any unready cluster, in that
order; otherwise return the dispatch's ok flag. -/
def handleDeletionInClusters (env : Env)
    (f : String → ClusterObj → List DispatchOp × List String) : HandleOutcome :=
  match env.clusters with
  | .error _ => ⟨.error .getClustersFailed, [], []⟩
  | .ok cs =>
    let ops := concatMap (fun c => (hdContribution env f c).1) cs
    let remaining := concatMap (fun c => (hdContribution env f c).2) cs
    let unreadyClusters := (cs.filter (fun c => !c.ready)).map Cluster.name
    let retrievalFailureClusters :=
      (cs.filter (fun c => c.ready && exceptIsError (env.cached c.name))).map Cluster.name
    let result : Except HandleErr Bool :=
      if env.unmanagedWaitTimeout then .error .timeout
      else if retrievalFailureClusters = [] then
        if unreadyClusters = [] then .ok env.unmanagedWaitOk
        else .error .notReady
      else .error .retrievalFailure
    ⟨result, ops, remaining⟩

/-- The deletion handler removeManagedLabel passes to
handleDeletionInClusters: skip terminating copies, otherwise record
RemoveManagedLabel. -/
def removeLabelHandler (c : String) (obj : ClusterObj) :
    List DispatchOp × List String :=
  if obj.hasDeletionTimestamp then ([], []) else ([⟨c, .removeManagedLabel⟩], [])

/-- Observable outcome of the controller's removeManagedLabel: whether it
returned without error, and the recorded operations. -/
structure RemoveLabelOutcome where
  success : Bool
  ops : List DispatchOp

/-- removeManagedLabel: strip the managed label from every ready cluster's
non-terminating cached copy; an error or a failed dispatch is a failure. -/
def removeManagedLabel (env : Env) : RemoveLabelOutcome :=
  let h := handleDeletionInClusters env removeLabelHandler
  match h.result with
  | .error _ => ⟨false, h.ops⟩
  | .ok ok => ⟨ok, h.ops⟩

/-- The deletion handler deleteFromClusters passes to
handleDeletionInClusters: a terminating host-cluster namespace companion is
skipped entirely; every other copy joins the remaining set; a copy already
carrying a deletion timestamp gets no operation; otherwise the host-cluster
namespace companion gets RemoveManagedLabel and anything else gets Delete. -/
def deleteHandler (fr : FedResource) (c : String) (obj : ClusterObj) :
    List DispatchOp × List String :=
  if fr.isNamespaceInHostCluster obj && obj.hasDeletionTimestamp then ([], [])
  else if obj.hasDeletionTimestamp then ([], [c])
  else if fr.isNamespaceInHostCluster obj then ([⟨c, .removeManagedLabel⟩], [c])
  else ([⟨c, .delete⟩], [c])

/-- Observable outcome of ensureRemovedOrUnmanaged: the error/ok result and
the clusters a CheckRemovedOrUnlabeled operation was dispatched for. -/
structure CheckOutcome where
  result : Except Unit Unit
  checked : List String

/-- ensureRemovedOrUnmanaged: dispatch an authoritative, uncached
removed-or-unlabeled check to every ready cluster, then fail on a check
dispatch timeout, any unready cluster, or any failed check, in that order. -/
def ensureRemovedOrUnmanaged (env : Env) : CheckOutcome :=
  match env.clusters with
  | .error _ => ⟨.error (), []⟩
  | .ok cs =>
    let checked := (cs.filter (fun c => c.ready)).map Cluster.name
    let unreadyClusters := (cs.filter (fun c => !c.ready)).map Cluster.name
    if env.checkWaitTimeout then ⟨.error (), checked⟩
    else if unreadyClusters = [] then
      if env.checkWaitOk then ⟨.ok (), checked⟩ else ⟨.error (), checked⟩
    else ⟨.error (), checked⟩

/-- removeFinalizer: drop the sync-controller finalizer from the object's
finalizer set and persist via the host client; a no-op when absent. -/
def removeFinalizer (env : Env) (fr : FedResource) : Except Unit (List String) :=
  if fr.finalizers.contains FinalizerSyncController then
    if env.hostUpdateFails then .error ()
    else .ok (fr.finalizers.filter (fun t => !(t == FinalizerSyncController)))
  else .ok fr.finalizers

/-- Observable outcome of deleteFromClusters: the (recheckRequired, error)
result, the recorded unmanaged operations, the remaining-clusters set, the
clusters the authoritative check covered, whether the check phase ran, the
finalizer list as persisted on the host store, and whether the finalizer
token was removed and persisted. -/
structure DeleteOutcome where
  result : Except Unit Bool
  ops : List DispatchOp
  remaining : List String
  checkedClusters : List String
  checkRan : Bool
  persistedFinalizers : List String
  finalizerRemoved : Bool

/-- deleteFromClusters: dispatch deletions through handleDeletionInClusters
with deleteHandler; a non-empty remaining set reports recheck-required;
otherwise require ensureRemovedOrUnmanaged to confirm before removing the
finalizer. -/
def deleteFromClusters (env : Env) (fr : FedResource) : DeleteOutcome :=
  let h := handleDeletionInClusters env (deleteHandler fr)
  match h.result with
  | .error _ => ⟨.error (), h.ops, h.remaining, [], false, fr.finalizers, false⟩
  | .ok hok =>
    if !hok then ⟨.error (), h.ops, h.remaining, [], false, fr.finalizers, false⟩
    else if h.remaining = [] then
      let ch := ensureRemovedOrUnmanaged env
      match ch.result with
      | .error _ => ⟨.error (), h.ops, h.remaining, ch.checked, true, fr.finalizers, false⟩
      | .ok _ =>
        match removeFinalizer env fr with
        | .error _ => ⟨.error (), h.ops, h.remaining, ch.checked, true, fr.finalizers, false⟩
        | .ok newFin =>
          ⟨.ok false, h.ops, h.remaining, ch.checked, true, newFin,
            fr.finalizers.contains FinalizerSyncController⟩
    else ⟨.ok true, h.ops, h.remaining, [], false, fr.finalizers, false⟩

/-- The orphan test of ensureDeletion: annotations is non-nil and binds the
orphan key to exactly the string value true. -/
def orphanRequested (fr : FedResource) : Bool :=
  match fr.annotations with
  | none => false
  | some m => annotationValue m OrphanManagedResources == "true"

/-- Observable outcome of ensureDeletion: the reconciliation status, the
recorded operations, the persisted finalizer list, and which branch ran. -/
structure EnsureDeletionOutcome where
  status : ReconciliationStatus
  ops : List DispatchOp
  persistedFinalizers : List String
  tookOrphanPath : Bool

/-- ensureDeletion: nothing to do without the finalizer; on the orphan
annotation remove the finalizer first and then strip managed labels; and
otherwise cascade through deleteFromClusters, mapping recheck-required to
NeedsRecheck. -/
def ensureDeletion (env : Env) (fr : FedResource) : EnsureDeletionOutcome :=
  if fr.finalizers.contains FinalizerSyncController then
    if orphanRequested fr then
      match removeFinalizer env fr with
      | .error _ => ⟨.error, [], fr.finalizers, true⟩
      | .ok newFin =>
        let r := removeManagedLabel env
        ⟨if r.success then .allOK else .error, r.ops, newFin, true⟩
    else
      let d := deleteFromClusters env fr
      match d.result with
      | .error _ => ⟨.error, d.ops, d.persistedFinalizers, false⟩
      | .ok recheck =>
        ⟨if recheck then .needsRecheck else .allOK, d.ops, d.persistedFinalizers, false⟩
  else ⟨.allOK, [], fr.finalizers, false⟩

/-- ensureFinalizer: idempotently add the sync-controller finalizer,
writing to the host store only when it was absent. -/
def ensureFinalizer (env : Env) (fr : FedResource) : Except Unit (List String) :=
  if fr.finalizers.contains FinalizerSyncController then .ok fr.finalizers
  else if env.hostUpdateFails then .error ()
  else .ok (fr.finalizers ++ [FinalizerSyncController])

/-- Observable outcome of reconcile: the returned status, every operation
dispatched during the call, whether the accessor was consulted, whether
placement was computed, and the resource's persisted finalizer list (none
when no resource was resolved). -/
structure ReconcileOutcome where
  status : ReconciliationStatus
  ops : List DispatchOp
  resolvedResource : Bool
  placementAttempted : Bool
  persistedFinalizers : Option (List String)

/-- reconcile: precondition gate, accessor resolution, the possible-orphan
short circuit, the absent-resource no-op, the deletion protocol for a
terminating resource, and otherwise finalizer-ensure plus propagation. -/
def reconcile (env : Env) : ReconcileOutcome :=
  if !isSynced env then ⟨.notSynced, [], false, false, none⟩
  else
    match env.accessor with
    | .error _ => ⟨.error, [], true, false, none⟩
    | .ok ar =>
      if ar.possibleOrphan then
        let r := removeManagedLabel env
        ⟨if r.success then .allOK else .error, r.ops, true, false, none⟩
      else
        match ar.fedResource with
        | none => ⟨.allOK, [], true, false, none⟩
        | some fr =>
          if fr.hasDeletionTimestamp then
            let d := ensureDeletion env fr
            ⟨d.status, d.ops, true, false, some d.persistedFinalizers⟩
          else
            match ensureFinalizer env fr with
            | .error _ => ⟨.error, [], true, false, some fr.finalizers⟩
            | .ok newFin =>
              let sr := syncToClusters env fr
              ⟨sr.status, sr.ops, true, sr.placementAttempted, some newFin⟩

/-- The operations a dispatch round recorded against one cluster name. -/
def opsFor (ops : List DispatchOp) (name : String) : List DispatchOp :=
  ops.filter (fun op => op.cluster == name)

/-- The status entries a dispatch round recorded against one cluster name. -/
def recordsFor (rs : List (String × PropagationStatus)) (name : String) :
    List (String × PropagationStatus) :=
  rs.filter (fun r => r.1 == name)

/-- The entries of a remaining-clusters list for one cluster name. -/
def remainingFor (rs : List String) (name : String) : List String :=
  rs.filter (fun s => s == name)

/-! ### Concrete environments used to evaluate the model -/

/-- A status environment whose first write succeeds. -/
def statusEnvOk : StatusEnv := ⟨fun _ => false, fun _ => .success, fun _ => .ok ⟨0, false⟩⟩

/-- A status environment with one conflict, then success after re-fetch. -/
def statusEnvConflict : StatusEnv :=
  ⟨fun _ => false, fun n => if n = 0 then .conflict else .success, fun _ => .ok ⟨7, false⟩⟩

/-- A ready member cluster. -/
def clusterA : Cluster := ⟨"a", true⟩

/-- An unready member cluster. -/
def clusterB : Cluster := ⟨"b", false⟩

/-- An environment where everything is synced, one ready cluster exists,
no copies are cached, and every external operation succeeds. -/
def envAllOk : Env :=
  { clustersSynced := true
    accessorSynced := true
    readyClusters := .ok [clusterA]
    targetStoreSynced := fun _ => true
    accessor := .ok ⟨none, false⟩
    clusters := .ok [clusterA]
    cached := fun _ => .ok none
    managedWaitOk := true
    managedWaitTimeout := false
    unmanagedWaitOk := true
    unmanagedWaitTimeout := false
    checkWaitOk := true
    checkWaitTimeout := false
    updateVersionsFails := false
    hostUpdateFails := false
    statusEnv := statusEnvOk }

/-- A terminating federated resource carrying the sync-controller
finalizer, with no orphan annotation and empty placement. -/
def frCascade : FedResource :=
  { finalizers := [FinalizerSyncController]
    annotations := none
    hasDeletionTimestamp := true
    computePlacement := fun _ => .ok []
    isNamespaceInHostCluster := fun _ => false
    obj := ⟨0, false⟩ }

/-- The same resource with the orphan annotation set to the string true. -/
def frOrphan : FedResource :=
  { frCascade with annotations := some [(OrphanManagedResources, "true")] }

/-- The same resource with a capitalized orphan annotation value. -/
def frOrphanUppercase : FedResource :=
  { frCascade with annotations := some [(OrphanManagedResources, "True")] }

/-- A non-terminating resource selecting cluster a. -/
def frSync : FedResource :=
  { frCascade with hasDeletionTimestamp := false, computePlacement := fun _ => .ok ["a"] }

/-- envAllOk with a non-terminating managed copy cached in every cluster. -/
def envDelete : Env := { envAllOk with cached := fun _ => .ok (some ⟨"x", false⟩) }

/-- envDelete with a failing unmanaged dispatch. -/
def envLabelFail : Env := { envDelete with unmanagedWaitOk := false }

/-- envAllOk with an additional unready cluster. -/
def envUnready : Env := { envAllOk with clusters := .ok [clusterA, clusterB] }

/-- envAllOk with a managed dispatch timeout. -/
def envTimeout : Env := { envAllOk with managedWaitTimeout := true }

/-- envAllOk with the cluster list not yet synced. -/
def envNotSynced : Env := { envAllOk with clustersSynced := false }

/-- envAllOk with the accessor reporting a possible orphan. -/
def envOrphanSignal : Env := { envAllOk with accessor := .ok ⟨none, true⟩ }

/-! ### List helper lemmas -/

theorem mem_concatMap {β α : Type} (f : β → List α) (a : α) :
    ∀ l : List β, a ∈ concatMap f l ↔ ∃ b, b ∈ l ∧ a ∈ f b := by
  intro l
  induction l with
  | nil => simp [concatMap]
  | cons b l ih =>
    simp only [concatMap, List.mem_append, ih, List.mem_cons]
    constructor
    · rintro (h | ⟨b', hb', ha⟩)
      · exact ⟨b, Or.inl rfl, h⟩
      · exact ⟨b', Or.inr hb', ha⟩
    · rintro ⟨b', (rfl | hb'), ha⟩
      · exact Or.inl ha
      · exact Or.inr ⟨b', hb', ha⟩

theorem filter_concatMap {β α : Type} (nm : β → String) (key : α → String)
    (f : β → List α) (hf : ∀ d a, a ∈ f d → key a = nm d) :
    ∀ (l : List β) (c : β), c ∈ l → (l.map nm).Nodup →
      (concatMap f l).filter (fun a => key a == nm c) = f c := by
  intro l
  induction l with
  | nil => intro c hc; exact absurd hc (List.not_mem_nil c)
  | cons d rest ih =>
    intro c hc hnd
    rw [List.map_cons, List.nodup_cons] at hnd
    obtain ⟨hdn, hnd'⟩ := hnd
    rw [concatMap, List.filter_append]
    rcases List.mem_cons.mp hc with hcd | hcr
    · subst hcd
      have h1 : (f c).filter (fun a => key a == nm c) = f c := by
        apply List.filter_eq_self.mpr
        intro a ha
        simp [hf c a ha]
      have h2 : (concatMap f rest).filter (fun a => key a == nm c) = [] := by
        apply List.filter_eq_nil_iff.mpr
        intro a ha
        obtain ⟨b, hb, hab⟩ := (mem_concatMap f a rest).mp ha
        have hk : key a = nm b := hf b a hab
        simp only [hk, beq_iff_eq]
        intro hEq
        exact hdn (hEq ▸ List.mem_map_of_mem nm hb)
      rw [h1, h2, List.append_nil]
    · have h1 : (f d).filter (fun a => key a == nm c) = [] := by
        apply List.filter_eq_nil_iff.mpr
        intro a ha
        have hk : key a = nm d := hf d a ha
        simp only [hk, beq_iff_eq]
        intro hEq
        exact hdn (hEq ▸ List.mem_map_of_mem nm hcr)
      rw [h1, List.nil_append]
      exact ih c hcr hnd'

/-! ### Status aggregator lemmas -/

theorem statusAux_ok_or_error (env : StatusEnv) :
    ∀ (fuel n : Nat) (obj : StatusObj),
      (setPropagationStatusAux env fuel n obj).1 = .allOK ∨
        (setPropagationStatusAux env fuel n obj).1 = .error := by
  intro fuel
  induction fuel with
  | zero => intro n obj; right; rfl
  | succ fuel ih =>
    intro n obj
    simp only [setPropagationStatusAux]
    by_cases hf : env.setStatusFails n
    · simp [hf]
    · simp only [hf, if_false, Bool.false_eq_true]
      rcases hw : env.write n with _ | _ | _
      · left; rfl
      · rcases hr : env.refetch n with e | latest
        · right; rfl
        · exact ih (n + 1) latest
      · right; rfl

theorem statusAux_allOK_iff (env : StatusEnv) :
    ∀ (fuel n : Nat) (obj : StatusObj),
      (setPropagationStatusAux env fuel n obj).1 = .allOK ↔
        ∃ k, k < fuel ∧
          (∀ i, i < k → env.setStatusFails (n + i) = false ∧
            env.write (n + i) = .conflict ∧ ∃ o, env.refetch (n + i) = .ok o) ∧
          env.setStatusFails (n + k) = false ∧ env.write (n + k) = .success := by
  intro fuel
  induction fuel with
  | zero =>
    intro n obj
    simp only [setPropagationStatusAux]
    constructor
    · intro h; exact absurd h (by simp)
    · rintro ⟨k, hk, _⟩; omega
  | succ fuel ih =>
    intro n obj
    simp only [setPropagationStatusAux]
    by_cases hf : env.setStatusFails n
    · simp only [hf, if_true]
      constructor
      · intro h; exact absurd h (by simp)
      · rintro ⟨k, hk, hprev, hsk, hwk⟩
        exfalso
        cases k with
        | zero => rw [Nat.add_zero] at hsk; rw [hsk] at hf; exact Bool.false_ne_true hf
        | succ j =>
          obtain ⟨hs0, _, _⟩ := hprev 0 (by omega)
          rw [Nat.add_zero] at hs0; rw [hs0] at hf; exact Bool.false_ne_true hf
    · simp only [hf, if_false, Bool.false_eq_true]
      have hfb : env.setStatusFails n = false := by
        exact Bool.not_eq_true _ ▸ (by simpa using hf)
      rcases hw : env.write n with _ | _ | _
      · constructor
        · intro _
          refine ⟨0, by omega, fun i hi => absurd hi (by omega), ?_, ?_⟩
          · rw [Nat.add_zero]; exact hfb
          · rw [Nat.add_zero]; exact hw
        · intro _; rfl
      · rcases hr : env.refetch n with e | latest
        · constructor
          · intro h; exact absurd h (by simp)
          · rintro ⟨k, hk, hprev, hsk, hwk⟩
            exfalso
            cases k with
            | zero => rw [Nat.add_zero, hw] at hwk; exact WriteOutcome.noConfusion hwk
            | succ j =>
              obtain ⟨_, _, o, ho⟩ := hprev 0 (by omega)
              rw [Nat.add_zero, hr] at ho; exact Except.noConfusion ho
        · simp only []
          rw [ih (n + 1) latest]
          constructor
          · rintro ⟨k, hk, hprev, hsk, hwk⟩
            refine ⟨k + 1, by omega, ?_, ?_, ?_⟩
            · intro i hi
              cases i with
              | zero =>
                rw [Nat.add_zero]
                exact ⟨hfb, hw, latest, hr⟩
              | succ j =>
                have hidx : n + (j + 1) = n + 1 + j := by omega
                rw [hidx]
                exact hprev j (by omega)
            · have hidx : n + (k + 1) = n + 1 + k := by omega
              rw [hidx]; exact hsk
            · have hidx : n + (k + 1) = n + 1 + k := by omega
              rw [hidx]; exact hwk
          · rintro ⟨k, hk, hprev, hsk, hwk⟩
            cases k with
            | zero =>
              rw [Nat.add_zero, hw] at hwk
              exact absurd hwk (by simp)
            | succ j =>
              refine ⟨j, by omega, ?_, ?_, ?_⟩
              · intro i hi
                have hidx : n + 1 + i = n + (i + 1) := by omega
                rw [hidx]
                exact hprev (i + 1) (by omega)
              · have hidx : n + 1 + j = n + (j + 1) := by omega
                rw [hidx]; exact hsk
              · have hidx : n + 1 + j = n + (j + 1) := by omega
                rw [hidx]; exact hwk
      · constructor
        · intro h; exact absurd h (by simp)
        · rintro ⟨k, hk, hprev, hsk, hwk⟩
          exfalso
          cases k with
          | zero => rw [Nat.add_zero, hw] at hwk; exact WriteOutcome.noConfusion hwk
          | succ j =>
            obtain ⟨_, hc0, _⟩ := hprev 0 (by omega)
            rw [Nat.add_zero, hw] at hc0; exact WriteOutcome.noConfusion hc0

theorem statusAux_trace_head (env : StatusEnv) :
    ∀ (fuel n : Nat) (obj : StatusObj), 0 < fuel →
      ((setPropagationStatusAux env fuel n obj).2).head? = some obj := by
  intro fuel
  cases fuel with
  | zero => intro n obj h; omega
  | succ fuel =>
    intro n obj _
    simp only [setPropagationStatusAux]
    by_cases hf : env.setStatusFails n
    · simp [hf]
    · simp only [hf, if_false, Bool.false_eq_true]
      rcases hw : env.write n with _ | _ | _
      · rfl
      · rcases hr : env.refetch n with e | latest
        · rfl
        · rfl
      · rfl

theorem statusAux_trace_refetch (env : StatusEnv) :
    ∀ (fuel n : Nat) (obj : StatusObj) (i : Nat) (o : StatusObj),
      (((setPropagationStatusAux env fuel n obj).2).drop (i + 1)).head? = some o →
      env.refetch (n + i) = .ok o := by
  intro fuel
  induction fuel with
  | zero =>
    intro n obj i o h
    simp [setPropagationStatusAux] at h
  | succ fuel ih =>
    intro n obj i o h
    simp only [setPropagationStatusAux] at h
    by_cases hf : env.setStatusFails n
    · rw [if_pos hf] at h
      simp at h
    · rw [if_neg hf] at h
      rcases hw : env.write n with _ | _ | _ <;> rw [hw] at h
      · simp at h
      · rcases hr : env.refetch n with e | latest <;> rw [hr] at h
        · simp at h
        · simp only [List.drop_succ_cons] at h
          cases i with
          | zero =>
            rw [Nat.add_zero, hr]
            rw [List.drop_zero] at h
            cases fuel with
            | zero => simp [setPropagationStatusAux] at h
            | succ f =>
              rw [statusAux_trace_head env (f + 1) (n + 1) latest (by omega)] at h
              exact congrArg Except.ok (Option.some.inj h)
          | succ j =>
            have hidx : n + (j + 1) = n + 1 + j := by omega
            rw [hidx]
            exact ih (n + 1) latest j o h
      · simp at h

/-! ### Per-cluster decision lemmas -/

theorem syncDecide_ops_spec (env : Env) (fr : FedResource) (sel : List String) (c : Cluster) :
    ∀ a ∈ (syncDecide env fr sel c).1, a.cluster = c.name ∧ c.ready = true := by
  intro a ha
  simp only [syncDecide] at ha
  split at ha
  · rename_i hnr
    split at ha <;> simp at ha
  · rename_i hrd
    have hr : c.ready = true := by revert hrd; cases c.ready <;> simp
    split at ha
    · simp at ha
    · split at ha
      · split at ha
        · simp at ha
        · split at ha
          · simp at ha
          · split at ha <;> simp_all
      · split at ha <;> simp_all

theorem syncDecide_records_spec (env : Env) (fr : FedResource) (sel : List String) (c : Cluster) :
    ∀ a ∈ (syncDecide env fr sel c).2, a.1 = c.name := by
  intro a ha
  simp only [syncDecide] at ha
  split at ha
  · split at ha <;> simp_all
  · split at ha
    · simp_all
    · split at ha
      · split at ha
        · simp at ha
        · split at ha
          · simp_all
          · split at ha <;> simp_all
      · split at ha <;> simp_all

theorem hdContribution_ops_spec (env : Env)
    (f : String → ClusterObj → List DispatchOp × List String)
    (hf : ∀ n obj a, a ∈ (f n obj).1 → a.cluster = n) (c : Cluster) :
    ∀ a ∈ (hdContribution env f c).1, a.cluster = c.name ∧ c.ready = true := by
  intro a ha
  simp only [hdContribution] at ha
  split at ha
  · rename_i hr
    split at ha
    · simp at ha
    · simp at ha
    · rename_i obj heq
      exact ⟨hf c.name obj a ha, hr⟩
  · simp at ha

theorem hdContribution_remaining_spec (env : Env)
    (f : String → ClusterObj → List DispatchOp × List String)
    (hf : ∀ n obj s, s ∈ (f n obj).2 → s = n) (c : Cluster) :
    ∀ s ∈ (hdContribution env f c).2, s = c.name := by
  intro s hs
  simp only [hdContribution] at hs
  split at hs
  · split at hs
    · simp at hs
    · simp at hs
    · rename_i obj heq
      exact hf c.name obj s hs
  · simp at hs

theorem deleteHandler_ops_cluster (fr : FedResource) :
    ∀ n obj a, a ∈ (deleteHandler fr n obj).1 → a.cluster = n := by
  intro n obj a ha
  simp only [deleteHandler] at ha
  split at ha
  · simp at ha
  · split at ha
    · simp at ha
    · split at ha <;> simp_all

theorem deleteHandler_remaining_cluster (fr : FedResource) :
    ∀ n obj s, s ∈ (deleteHandler fr n obj).2 → s = n := by
  intro n obj s hs
  simp only [deleteHandler] at hs
  split at hs
  · simp at hs
  · split at hs
    · simp_all
    · split at hs <;> simp_all

theorem removeLabelHandler_ops_cluster :
    ∀ n obj a, a ∈ (removeLabelHandler n obj).1 → a.cluster = n := by
  intro n obj a ha
  simp only [removeLabelHandler] at ha
  split at ha <;> simp_all

theorem removeLabelHandler_ops_kind :
    ∀ n obj a, a ∈ (removeLabelHandler n obj).1 → a.op = .removeManagedLabel := by
  intro n obj a ha
  simp only [removeLabelHandler] at ha
  split at ha <;> simp_all

/-! ### handleDeletionInClusters lemmas -/

theorem handleDeletion_ops_eq (env : Env)
    (f : String → ClusterObj → List DispatchOp × List String)
    (cs : List Cluster) (hcs : env.clusters = .ok cs) :
    (handleDeletionInClusters env f).ops =
      concatMap (fun c => (hdContribution env f c).1) cs := by
  simp [handleDeletionInClusters, hcs]

theorem handleDeletion_remaining_eq (env : Env)
    (f : String → ClusterObj → List DispatchOp × List String)
    (cs : List Cluster) (hcs : env.clusters = .ok cs) :
    (handleDeletionInClusters env f).remaining =
      concatMap (fun c => (hdContribution env f c).2) cs := by
  simp [handleDeletionInClusters, hcs]

theorem handleDeletion_ops_exists (env : Env)
    (f : String → ClusterObj → List DispatchOp × List String) :
    ∀ a ∈ (handleDeletionInClusters env f).ops, ∃ n obj, a ∈ (f n obj).1 := by
  intro a ha
  unfold handleDeletionInClusters at ha
  rcases hcs : env.clusters with e | cs <;> simp only [hcs] at ha
  · simp at ha
  · obtain ⟨d, hd, had⟩ := (mem_concatMap _ a cs).mp ha
    simp only [hdContribution] at had
    split at had
    · split at had
      · simp at had
      · simp at had
      · rename_i obj heq
        exact ⟨d.name, obj, had⟩
    · simp at had

theorem handleDeletion_ops_ready (env : Env)
    (f : String → ClusterObj → List DispatchOp × List String)
    (cs : List Cluster) (hcs : env.clusters = .ok cs)
    (hf : ∀ n obj a, a ∈ (f n obj).1 → a.cluster = n) :
    ∀ a ∈ (handleDeletionInClusters env f).ops,
      ∃ d, d ∈ cs ∧ a.cluster = d.name ∧ d.ready = true := by
  intro a ha
  rw [handleDeletion_ops_eq env f cs hcs] at ha
  obtain ⟨d, hd, had⟩ := (mem_concatMap _ a cs).mp ha
  obtain ⟨hc, hr⟩ := hdContribution_ops_spec env f hf d a had
  exact ⟨d, hd, hc, hr⟩

theorem handleDeletion_result_unready (env : Env)
    (f : String → ClusterObj → List DispatchOp × List String)
    (cs : List Cluster) (hcs : env.clusters = .ok cs)
    (c : Cluster) (hc : c ∈ cs) (hcr : c.ready = false) :
    exceptIsError (handleDeletionInClusters env f).result = true := by
  simp only [handleDeletionInClusters, hcs]
  have hmem : c ∈ cs.filter (fun c => !c.ready) :=
    List.mem_filter.mpr ⟨hc, by simp [hcr]⟩
  have hne : (cs.filter (fun c => !c.ready)).map Cluster.name ≠ [] := by
    intro h
    rw [List.map_eq_nil_iff] at h
    rw [h] at hmem
    exact absurd hmem (List.not_mem_nil c)
  split
  · rfl
  · split
    all_goals first
      | rfl
      | (rename_i hun; exact absurd hun hne)

theorem handleDeletion_result_timeout (env : Env)
    (f : String → ClusterObj → List DispatchOp × List String)
    (ht : env.unmanagedWaitTimeout = true) :
    exceptIsError (handleDeletionInClusters env f).result = true := by
  unfold handleDeletionInClusters
  rcases hcs : env.clusters with e | cs
  · simp [exceptIsError]
  · simp [ht, exceptIsError]

theorem handleDeletion_result_ok (env : Env)
    (f : String → ClusterObj → List DispatchOp × List String) (b : Bool)
    (h : (handleDeletionInClusters env f).result = .ok b) :
    ∃ cs, env.clusters = .ok cs ∧ env.unmanagedWaitTimeout = false ∧
      b = env.unmanagedWaitOk ∧ (∀ c ∈ cs, c.ready = true) ∧
      (∀ c ∈ cs, exceptIsError (env.cached c.name) = false) := by
  unfold handleDeletionInClusters at h
  rcases hcs : env.clusters with e | cs <;> simp only [hcs] at h
  · exact absurd h (by simp)
  · refine ⟨cs, rfl, ?_⟩
    split at h
    · exact absurd h (by simp)
    · rename_i ht
      split at h
      · rename_i hrf
        split at h
        · rename_i hun
          have hready : ∀ c ∈ cs, c.ready = true := by
            intro c hc
            rw [List.map_eq_nil_iff, List.filter_eq_nil_iff] at hun
            have := hun c hc
            revert this; cases c.ready <;> simp
          refine ⟨by simpa using ht, (Except.ok.inj h).symm, hready, ?_⟩
          intro c hc
          rw [List.map_eq_nil_iff, List.filter_eq_nil_iff] at hrf
          have := hrf c hc
          rw [hready c hc] at this
          revert this
          cases exceptIsError (env.cached c.name) <;> simp
        · exact absurd h (by simp)
      · exact absurd h (by simp)

theorem handleDeletion_result_clean (env : Env)
    (f : String → ClusterObj → List DispatchOp × List String)
    (cs : List Cluster) (hcs : env.clusters = .ok cs)
    (ht : env.unmanagedWaitTimeout = false)
    (hready : ∀ c ∈ cs, c.ready = true)
    (hcache : ∀ c ∈ cs, exceptIsError (env.cached c.name) = false) :
    (handleDeletionInClusters env f).result = .ok env.unmanagedWaitOk := by
  simp only [handleDeletionInClusters, hcs]
  have h1 : cs.filter (fun c => !c.ready) = [] :=
    List.filter_eq_nil_iff.mpr (fun c hc => by simp [hready c hc])
  have h2 : cs.filter (fun c => c.ready && exceptIsError (env.cached c.name)) = [] :=
    List.filter_eq_nil_iff.mpr (fun c hc => by simp [hcache c hc])
  simp [ht, h1, h2]

/-! ### Check phase and finalizer lemmas -/

theorem ensureRemoved_checked (env : Env) (cs : List Cluster)
    (hcs : env.clusters = .ok cs) :
    (ensureRemovedOrUnmanaged env).checked =
      (cs.filter (fun c => c.ready)).map Cluster.name := by
  unfold ensureRemovedOrUnmanaged
  simp only [hcs]
  split
  · rfl
  · split
    · split <;> rfl
    · rfl

theorem ensureRemoved_ok (env : Env)
    (h : (ensureRemovedOrUnmanaged env).result = .ok ()) :
    ∃ cs, env.clusters = .ok cs ∧ env.checkWaitTimeout = false ∧
      env.checkWaitOk = true ∧ (∀ c ∈ cs, c.ready = true) ∧
      (ensureRemovedOrUnmanaged env).checked = cs.map Cluster.name := by
  unfold ensureRemovedOrUnmanaged at h
  rcases hcs : env.clusters with e | cs <;> simp only [hcs] at h
  · exact absurd h (by simp)
  · refine ⟨cs, rfl, ?_⟩
    split at h
    · exact absurd h (by simp)
    · rename_i ht
      split at h
      · rename_i hun
        split at h
        · rename_i hok
          have hready : ∀ c ∈ cs, c.ready = true := by
            intro c hc
            rw [List.map_eq_nil_iff, List.filter_eq_nil_iff] at hun
            have := hun c hc
            revert this; cases c.ready <;> simp
          have hfil : cs.filter (fun c => c.ready) = cs :=
            List.filter_eq_self.mpr (fun c hc => by simp [hready c hc])
          refine ⟨by simpa using ht, hok, hready, ?_⟩
          rw [ensureRemoved_checked env cs hcs, hfil]
        · exact absurd h (by simp)
      · exact absurd h (by simp)

theorem ensureRemoved_err_of_badCheck (env : Env)
    (hrun : env.checkWaitOk = false ∨ env.checkWaitTimeout = true) :
    (ensureRemovedOrUnmanaged env).result = .error () := by
  rcases hcs : env.clusters with e | cs
  · simp [ensureRemovedOrUnmanaged, hcs]
  · unfold ensureRemovedOrUnmanaged
    simp only [hcs]
    rcases hrun with hok | ht
    · split
      · rfl
      · split
        · split
          · rename_i hcw
            rw [hcw] at hok
            exact absurd hok (by simp)
          · rfl
        · rfl
    · split
      · rfl
      · rename_i hnt
        exact absurd ht hnt

theorem removeFinalizer_ok (env : Env) (fr : FedResource) (nf : List String)
    (h : removeFinalizer env fr = .ok nf) :
    nf.contains FinalizerSyncController = false ∨ nf = fr.finalizers := by
  unfold removeFinalizer at h
  split at h
  · split at h
    · exact absurd h (by simp)
    · left
      rw [← Except.ok.inj h]
      rw [Bool.eq_false_iff]
      intro hc
      have hmem := List.elem_iff.mp hc
      have := (List.mem_filter.mp hmem).2
      simp at this
  · right
    exact (Except.ok.inj h).symm

/-! ### deleteFromClusters structural lemmas -/

theorem deleteFromClusters_ops_eq (env : Env) (fr : FedResource) :
    (deleteFromClusters env fr).ops =
      (handleDeletionInClusters env (deleteHandler fr)).ops := by
  simp only [deleteFromClusters]
  rcases hres : (handleDeletionInClusters env (deleteHandler fr)).result with e | b
  · rfl
  · cases b
    · rfl
    · dsimp only
      by_cases hrem : (handleDeletionInClusters env (deleteHandler fr)).remaining = []
      · rw [if_pos hrem]
        rcases hch : (ensureRemovedOrUnmanaged env).result with e | u
        · rfl
        · rcases hrf : removeFinalizer env fr with e | nf <;> rfl
      · rw [if_neg hrem]
        rfl

theorem deleteFromClusters_remaining_eq (env : Env) (fr : FedResource) :
    (deleteFromClusters env fr).remaining =
      (handleDeletionInClusters env (deleteHandler fr)).remaining := by
  simp only [deleteFromClusters]
  rcases hres : (handleDeletionInClusters env (deleteHandler fr)).result with e | b
  · rfl
  · cases b
    · rfl
    · dsimp only
      by_cases hrem : (handleDeletionInClusters env (deleteHandler fr)).remaining = []
      · rw [if_pos hrem]
        rcases hch : (ensureRemovedOrUnmanaged env).result with e | u
        · rfl
        · rcases hrf : removeFinalizer env fr with e | nf <;> rfl
      · rw [if_neg hrem]
        rfl

theorem deleteFromClusters_finalizerRemoved (env : Env) (fr : FedResource)
    (h : (deleteFromClusters env fr).finalizerRemoved = true) :
    (handleDeletionInClusters env (deleteHandler fr)).result = .ok true ∧
      (handleDeletionInClusters env (deleteHandler fr)).remaining = [] ∧
      (ensureRemovedOrUnmanaged env).result = .ok () ∧
      (deleteFromClusters env fr).remaining = [] ∧
      (deleteFromClusters env fr).checkRan = true ∧
      (deleteFromClusters env fr).checkedClusters = (ensureRemovedOrUnmanaged env).checked ∧
      fr.finalizers.contains FinalizerSyncController = true := by
  rcases hres : (handleDeletionInClusters env (deleteHandler fr)).result with e | b
  · simp [deleteFromClusters, hres] at h
  · cases b
    · simp [deleteFromClusters, hres] at h
    · by_cases hrem : (handleDeletionInClusters env (deleteHandler fr)).remaining = []
      · rcases hch : (ensureRemovedOrUnmanaged env).result with e | u
        · simp [deleteFromClusters, hres, hrem, hch] at h
        · rcases hrf : removeFinalizer env fr with e | nf
          · simp [deleteFromClusters, hres, hrem, hch, hrf] at h
          · rcases u
            refine ⟨rfl, hrem, rfl, ?_, ?_, ?_, ?_⟩
            · rw [deleteFromClusters_remaining_eq]
              exact hrem
            · simp [deleteFromClusters, hres, hrem, hch, hrf]
            · simp [deleteFromClusters, hres, hrem, hch, hrf]
            · simpa [deleteFromClusters, hres, hrem, hch, hrf] using h
      · simp [deleteFromClusters, hres, hrem] at h

theorem deleteFromClusters_err_untouched (env : Env) (fr : FedResource)
    (h : exceptIsError (handleDeletionInClusters env (deleteHandler fr)).result = true) :
    (deleteFromClusters env fr).result = .error () ∧
      (deleteFromClusters env fr).finalizerRemoved = false ∧
      (deleteFromClusters env fr).persistedFinalizers = fr.finalizers := by
  rcases hres : (handleDeletionInClusters env (deleteHandler fr)).result with e | b
  · rcases e <;> (refine ⟨?_, ?_, ?_⟩ <;> simp [deleteFromClusters, hres])
  · rw [hres] at h
    exact absurd h (by simp [exceptIsError])

theorem deleteFromClusters_checkFailed (env : Env) (fr : FedResource)
    (hck : (deleteFromClusters env fr).checkRan = true)
    (hbad : env.checkWaitOk = false ∨ env.checkWaitTimeout = true) :
    (deleteFromClusters env fr).result = .error () ∧
      (deleteFromClusters env fr).finalizerRemoved = false ∧
      (deleteFromClusters env fr).persistedFinalizers = fr.finalizers := by
  have hce := ensureRemoved_err_of_badCheck env hbad
  rcases hres : (handleDeletionInClusters env (deleteHandler fr)).result with e | b
  · simp [deleteFromClusters, hres] at hck
  · cases b
    · simp [deleteFromClusters, hres] at hck
    · by_cases hrem : (handleDeletionInClusters env (deleteHandler fr)).remaining = []
      · refine ⟨?_, ?_, ?_⟩ <;> simp [deleteFromClusters, hres, hrem, hce]
      · simp [deleteFromClusters, hres, hrem] at hck

theorem deleteFromClusters_recheck (env : Env) (fr : FedResource)
    (hres : (handleDeletionInClusters env (deleteHandler fr)).result = .ok true)
    (hrem : (handleDeletionInClusters env (deleteHandler fr)).remaining ≠ []) :
    (deleteFromClusters env fr).result = .ok true ∧
      (deleteFromClusters env fr).finalizerRemoved = false ∧
      (deleteFromClusters env fr).persistedFinalizers = fr.finalizers ∧
      (deleteFromClusters env fr).checkRan = false := by
  refine ⟨?_, ?_, ?_, ?_⟩ <;> simp [deleteFromClusters, hres, hrem]

/-! ### ensureDeletion and syncToClusters lemmas -/

theorem ensureDeletion_cascade (env : Env) (fr : FedResource)
    (htok : fr.finalizers.contains FinalizerSyncController = true)
    (horph : orphanRequested fr = false) :
    ((deleteFromClusters env fr).result = .error () →
        (ensureDeletion env fr).status = .error ∧
        (ensureDeletion env fr).persistedFinalizers =
          (deleteFromClusters env fr).persistedFinalizers) ∧
      ((deleteFromClusters env fr).result = .ok true →
        (ensureDeletion env fr).status = .needsRecheck ∧
        (ensureDeletion env fr).persistedFinalizers =
          (deleteFromClusters env fr).persistedFinalizers) ∧
      ((deleteFromClusters env fr).result = .ok false →
        (ensureDeletion env fr).status = .allOK ∧
        (ensureDeletion env fr).persistedFinalizers =
          (deleteFromClusters env fr).persistedFinalizers) := by
  have hmem : FinalizerSyncController ∈ fr.finalizers := List.elem_iff.mp htok
  refine ⟨fun hc => ⟨?_, ?_⟩, fun hc => ⟨?_, ?_⟩, fun hc => ⟨?_, ?_⟩⟩ <;>
    simp [ensureDeletion, hmem, horph, hc]

theorem ensureDeletion_status_ne_notSynced (env : Env) (fr : FedResource) :
    (ensureDeletion env fr).status ≠ .notSynced := by
  unfold ensureDeletion
  split
  · split
    · split
      · simp
      · dsimp only
        split <;> simp
    · dsimp only
      split
      · simp
      · split <;> simp
  · simp

theorem syncToClusters_status_eq (env : Env) (fr : FedResource) :
    (syncToClusters env fr).status = (setPropagationStatus env.statusEnv fr.obj).1 := by
  unfold syncToClusters
  rcases hcs : env.clusters with e | cs
  · rfl
  · rcases hsel : fr.computePlacement cs with e | sel <;> simp only [hsel] <;> rfl

theorem syncToClusters_ops_eq (env : Env) (fr : FedResource)
    (cs : List Cluster) (sel : List String)
    (hcs : env.clusters = .ok cs) (hsel : fr.computePlacement cs = .ok sel) :
    (syncToClusters env fr).ops =
        concatMap (fun c => (syncDecide env fr sel c).1) cs ∧
      (syncToClusters env fr).statusRecords =
        concatMap (fun c => (syncDecide env fr sel c).2) cs := by
  refine ⟨?_, ?_⟩ <;> simp [syncToClusters, hcs, hsel]

/-! ### removeManagedLabel lemmas -/

theorem removeManagedLabel_ops_eq (env : Env) :
    (removeManagedLabel env).ops =
      (handleDeletionInClusters env removeLabelHandler).ops := by
  rcases hres : (handleDeletionInClusters env removeLabelHandler).result with e | b <;>
    simp [removeManagedLabel, hres]

theorem removeManagedLabel_ops_kind (env : Env) :
    ∀ a ∈ (removeManagedLabel env).ops, a.op = .removeManagedLabel := by
  intro a ha
  rw [removeManagedLabel_ops_eq] at ha
  obtain ⟨n, obj, hmem⟩ := handleDeletion_ops_exists env removeLabelHandler a ha
  exact removeLabelHandler_ops_kind n obj a hmem

theorem removeManagedLabel_success_iff (env : Env) :
    (removeManagedLabel env).success = true ↔
      (handleDeletionInClusters env removeLabelHandler).result = .ok true := by
  rcases hres : (handleDeletionInClusters env removeLabelHandler).result with e | b
  · simp [removeManagedLabel, hres]
  · cases b <;> simp [removeManagedLabel, hres]

/-! ### Claim theorems -/

/-- C1: during cascading deletion of a terminating resource carrying the
sync-controller finalizer, the finalizer is removed only when the remaining
set is empty after dispatch, the authoritative check covered every cluster
and succeeded, and no cluster was unready; any unready cluster, check
failure, or dispatch timeout makes deleteFromClusters return an error
(reconcile maps it to Error through ensureDeletion) and leaves the
finalizer in place. -/
theorem C1_finalizer_removal_gated (env : Env) (fr : FedResource)
    (htok : fr.finalizers.contains FinalizerSyncController = true)
    (horph : orphanRequested fr = false) :
    ((deleteFromClusters env fr).finalizerRemoved = true →
      (deleteFromClusters env fr).remaining = [] ∧
      (deleteFromClusters env fr).checkRan = true ∧
      env.checkWaitOk = true ∧ env.checkWaitTimeout = false ∧
      env.unmanagedWaitTimeout = false ∧ env.unmanagedWaitOk = true ∧
      ∃ cs, env.clusters = .ok cs ∧ (∀ c ∈ cs, c.ready = true) ∧
        (deleteFromClusters env fr).checkedClusters = cs.map Cluster.name) ∧
    (∀ cs c, env.clusters = .ok cs → c ∈ cs → c.ready = false →
      (deleteFromClusters env fr).result = .error () ∧
      (deleteFromClusters env fr).finalizerRemoved = false ∧
      (deleteFromClusters env fr).persistedFinalizers = fr.finalizers ∧
      (ensureDeletion env fr).status = .error) ∧
    (env.unmanagedWaitTimeout = true →
      (deleteFromClusters env fr).result = .error () ∧
      (deleteFromClusters env fr).finalizerRemoved = false ∧
      (deleteFromClusters env fr).persistedFinalizers = fr.finalizers ∧
      (ensureDeletion env fr).status = .error) ∧
    ((deleteFromClusters env fr).checkRan = true →
      env.checkWaitOk = false ∨ env.checkWaitTimeout = true →
      (deleteFromClusters env fr).result = .error () ∧
      (deleteFromClusters env fr).finalizerRemoved = false ∧
      (deleteFromClusters env fr).persistedFinalizers = fr.finalizers ∧
      (ensureDeletion env fr).status = .error) := by
  refine ⟨?_, ?_, ?_, ?_⟩
  · intro h
    obtain ⟨hhr, hhrem, hch, hdrem, hckr, hcked, _⟩ :=
      deleteFromClusters_finalizerRemoved env fr h
    obtain ⟨cs, hcs, hnt, hwok, _, _⟩ := handleDeletion_result_ok env _ true hhr
    obtain ⟨cs2, hcs2, hct, hcwok, hready, hchecked⟩ := ensureRemoved_ok env hch
    have hcseq : cs2 = cs := by
      rw [hcs] at hcs2
      exact (Except.ok.inj hcs2).symm
    subst hcseq
    exact ⟨hdrem, hckr, hcwok, hct, hnt, hwok.symm, cs2, hcs, hready,
      hcked.trans hchecked⟩
  · intro cs c hcs hc hcr
    have hie := handleDeletion_result_unready env (deleteHandler fr) cs hcs c hc hcr
    obtain ⟨h1, h2, h3⟩ := deleteFromClusters_err_untouched env fr hie
    exact ⟨h1, h2, h3, ((ensureDeletion_cascade env fr htok horph).1 h1).1⟩
  · intro ht
    have hie := handleDeletion_result_timeout env (deleteHandler fr) ht
    obtain ⟨h1, h2, h3⟩ := deleteFromClusters_err_untouched env fr hie
    exact ⟨h1, h2, h3, ((ensureDeletion_cascade env fr htok horph).1 h1).1⟩
  · intro hck hbad
    obtain ⟨h1, h2, h3⟩ := deleteFromClusters_checkFailed env fr hck hbad
    exact ⟨h1, h2, h3, ((ensureDeletion_cascade env fr htok horph).1 h1).1⟩

/-- C1 witness: in an all-successful environment with no cached copies the
finalizer is removed, and the theorem's conditions hold there. -/
theorem C1_witness :
    (deleteFromClusters envAllOk frCascade).finalizerRemoved = true ∧
    (deleteFromClusters envAllOk frCascade).remaining = [] ∧
    (deleteFromClusters envAllOk frCascade).checkRan = true ∧
    envAllOk.checkWaitOk = true := by
  have h := (C1_finalizer_removal_gated envAllOk frCascade rfl rfl).1 rfl
  exact ⟨rfl, h.1, h.2.1, h.2.2.1⟩

theorem contains_eq_false_iff (l : List String) (a : String) :
    l.contains a = false ↔ a ∉ l := by
  rw [Bool.eq_false_iff]
  exact not_congr List.elem_iff

/-- C2: for every cluster in the retrieved cluster list, syncToClusters
decides exactly the action of the decision table: not-ready and selected
records ClusterNotReady with no operation; not-ready and not selected is
skipped; ready, not selected, absent in cache is skipped; ready, not
selected, terminating cached copy records WaitingForRemoval; ready, not
selected, host-cluster namespace companion gets RemoveManagedLabel; ready,
not selected, otherwise gets Delete; ready, selected, absent gets Create;
ready, selected, present gets Update. -/
theorem C2_sync_decision_table (env : Env) (fr : FedResource)
    (cs : List Cluster) (sel : List String)
    (hcs : env.clusters = .ok cs) (hsel : fr.computePlacement cs = .ok sel)
    (hnd : (cs.map Cluster.name).Nodup) (c : Cluster) (hc : c ∈ cs) :
    (c.ready = false → sel.contains c.name = true →
      opsFor (syncToClusters env fr).ops c.name = [] ∧
      recordsFor (syncToClusters env fr).statusRecords c.name =
        [(c.name, .clusterNotReady)]) ∧
    (c.ready = false → sel.contains c.name = false →
      opsFor (syncToClusters env fr).ops c.name = [] ∧
      recordsFor (syncToClusters env fr).statusRecords c.name = []) ∧
    (c.ready = true → sel.contains c.name = false → env.cached c.name = .ok none →
      opsFor (syncToClusters env fr).ops c.name = [] ∧
      recordsFor (syncToClusters env fr).statusRecords c.name = []) ∧
    (∀ obj, c.ready = true → sel.contains c.name = false →
      env.cached c.name = .ok (some obj) → obj.hasDeletionTimestamp = true →
      opsFor (syncToClusters env fr).ops c.name = [] ∧
      recordsFor (syncToClusters env fr).statusRecords c.name =
        [(c.name, .waitingForRemoval)]) ∧
    (∀ obj, c.ready = true → sel.contains c.name = false →
      env.cached c.name = .ok (some obj) → obj.hasDeletionTimestamp = false →
      fr.isNamespaceInHostCluster obj = true →
      opsFor (syncToClusters env fr).ops c.name = [⟨c.name, .removeManagedLabel⟩] ∧
      recordsFor (syncToClusters env fr).statusRecords c.name = []) ∧
    (∀ obj, c.ready = true → sel.contains c.name = false →
      env.cached c.name = .ok (some obj) → obj.hasDeletionTimestamp = false →
      fr.isNamespaceInHostCluster obj = false →
      opsFor (syncToClusters env fr).ops c.name = [⟨c.name, .delete⟩] ∧
      recordsFor (syncToClusters env fr).statusRecords c.name = []) ∧
    (c.ready = true → sel.contains c.name = true → env.cached c.name = .ok none →
      opsFor (syncToClusters env fr).ops c.name = [⟨c.name, .create⟩] ∧
      recordsFor (syncToClusters env fr).statusRecords c.name = []) ∧
    (∀ obj, c.ready = true → sel.contains c.name = true →
      env.cached c.name = .ok (some obj) →
      opsFor (syncToClusters env fr).ops c.name = [⟨c.name, .update⟩] ∧
      recordsFor (syncToClusters env fr).statusRecords c.name = []) := by
  obtain ⟨hops, hrec⟩ := syncToClusters_ops_eq env fr cs sel hcs hsel
  have hOps : opsFor (syncToClusters env fr).ops c.name = (syncDecide env fr sel c).1 := by
    rw [opsFor, hops]
    exact filter_concatMap Cluster.name DispatchOp.cluster _
      (fun d a ha => (syncDecide_ops_spec env fr sel d a ha).1) cs c hc hnd
  have hRec : recordsFor (syncToClusters env fr).statusRecords c.name =
      (syncDecide env fr sel c).2 := by
    rw [recordsFor, hrec]
    exact filter_concatMap Cluster.name Prod.fst _
      (syncDecide_records_spec env fr sel) cs c hc hnd
  rw [hOps, hRec]
  refine ⟨?_, ?_, ?_, ?_, ?_, ?_, ?_, ?_⟩
  · intro hr hs
    have hs2 : c.name ∈ sel := List.elem_iff.mp hs
    exact ⟨by simp [syncDecide, hr, hs, hs2], by simp [syncDecide, hr, hs, hs2]⟩
  · intro hr hs
    have hs2 : c.name ∉ sel := (contains_eq_false_iff sel c.name).mp hs
    exact ⟨by simp [syncDecide, hr, hs, hs2], by simp [syncDecide, hr, hs, hs2]⟩
  · intro hr hs hcache
    have hs2 : c.name ∉ sel := (contains_eq_false_iff sel c.name).mp hs
    exact ⟨by simp [syncDecide, hr, hs, hs2, hcache],
      by simp [syncDecide, hr, hs, hs2, hcache]⟩
  · intro obj hr hs hcache hdt
    have hs2 : c.name ∉ sel := (contains_eq_false_iff sel c.name).mp hs
    exact ⟨by simp [syncDecide, hr, hs, hs2, hcache, hdt],
      by simp [syncDecide, hr, hs, hs2, hcache, hdt]⟩
  · intro obj hr hs hcache hdt hns
    have hs2 : c.name ∉ sel := (contains_eq_false_iff sel c.name).mp hs
    exact ⟨by simp [syncDecide, hr, hs, hs2, hcache, hdt, hns],
      by simp [syncDecide, hr, hs, hs2, hcache, hdt, hns]⟩
  · intro obj hr hs hcache hdt hns
    have hs2 : c.name ∉ sel := (contains_eq_false_iff sel c.name).mp hs
    exact ⟨by simp [syncDecide, hr, hs, hs2, hcache, hdt, hns],
      by simp [syncDecide, hr, hs, hs2, hcache, hdt, hns]⟩
  · intro hr hs hcache
    have hs2 : c.name ∈ sel := List.elem_iff.mp hs
    exact ⟨by simp [syncDecide, hr, hs, hs2, hcache],
      by simp [syncDecide, hr, hs, hs2, hcache]⟩
  · intro obj hr hs hcache
    have hs2 : c.name ∈ sel := List.elem_iff.mp hs
    exact ⟨by simp [syncDecide, hr, hs, hs2, hcache],
      by simp [syncDecide, hr, hs, hs2, hcache]⟩

/-- C2 witness: in an environment with one ready cluster, a selected
cluster with a cached copy gets exactly an Update. -/
theorem C2_witness :
    opsFor (syncToClusters envDelete frSync).ops clusterA.name =
        [⟨clusterA.name, .update⟩] ∧
      recordsFor (syncToClusters envDelete frSync).statusRecords clusterA.name = [] := by
  have h := (C2_sync_decision_table envDelete frSync [clusterA] (["a"]) rfl rfl
    (by simp [clusterA]) clusterA (by simp)).2.2.2.2.2.2.2
  exact h ⟨"x", false⟩ rfl rfl rfl


theorem filter_not_contains (l : List String) (a : String) :
    (l.filter (fun t => !(t == a))).contains a = false := by
  rw [Bool.eq_false_iff]
  intro hc
  have hmem := List.elem_iff.mp hc
  have := (List.mem_filter.mp hmem).2
  simp at this

/-- C3 counterexample: on the orphan path with a failing label-removal
dispatch, ensureDeletion returns Error, not AllOK, even though the
finalizer has already been removed; so the claim's best-effort AllOK
contract does not hold on the code. -/
theorem C3_counterexample :
    (ensureDeletion envLabelFail frOrphan).tookOrphanPath = true ∧
    (ensureDeletion envLabelFail frOrphan).status = .error ∧
    (ensureDeletion envLabelFail frOrphan).status ≠ .allOK ∧
    (ensureDeletion envLabelFail frOrphan).persistedFinalizers = [] := by
  refine ⟨rfl, rfl, ?_, rfl⟩
  intro h
  exact ReconciliationStatus.noConfusion h

/-- C3 amended: on the orphan path ensureDeletion removes the finalizer
token first (a failing finalizer write aborts with Error before any label
dispatch), then issues RemoveManagedLabel across ready clusters holding a
non-terminating cached copy; it returns AllOK exactly when label removal
succeeds, and a label-removal failure returns Error while leaving the
finalizer removed. -/
theorem C3_orphan_path_amended (env : Env) (fr : FedResource)
    (htok : fr.finalizers.contains FinalizerSyncController = true)
    (horph : orphanRequested fr = true) :
    (ensureDeletion env fr).tookOrphanPath = true ∧
    (env.hostUpdateFails = true →
      (ensureDeletion env fr).status = .error ∧
      (ensureDeletion env fr).ops = [] ∧
      (ensureDeletion env fr).persistedFinalizers = fr.finalizers) ∧
    (env.hostUpdateFails = false →
      (ensureDeletion env fr).persistedFinalizers =
        fr.finalizers.filter (fun t => !(t == FinalizerSyncController)) ∧
      ((ensureDeletion env fr).persistedFinalizers).contains
        FinalizerSyncController = false ∧
      (ensureDeletion env fr).ops = (removeManagedLabel env).ops ∧
      (∀ a ∈ (ensureDeletion env fr).ops, a.op = .removeManagedLabel) ∧
      ((ensureDeletion env fr).status = .allOK ↔
        (removeManagedLabel env).success = true) ∧
      ((removeManagedLabel env).success = false →
        (ensureDeletion env fr).status = .error) ∧
      (∀ cs, env.clusters = .ok cs → (cs.map Cluster.name).Nodup →
        ∀ c ∈ cs, ∀ obj, c.ready = true → env.cached c.name = .ok (some obj) →
          opsFor (ensureDeletion env fr).ops c.name =
            (if obj.hasDeletionTimestamp then [] else
              [⟨c.name, .removeManagedLabel⟩]))) := by
  have hmem : FinalizerSyncController ∈ fr.finalizers := List.elem_iff.mp htok
  refine ⟨?_, ?_, ?_⟩
  · by_cases hup : env.hostUpdateFails
    · simp [ensureDeletion, removeFinalizer, hmem, horph, hup]
    · by_cases hsucc : (removeManagedLabel env).success <;>
        simp [ensureDeletion, removeFinalizer, hmem, horph, hup, hsucc]
  · intro hup
    refine ⟨?_, ?_, ?_⟩ <;> simp [ensureDeletion, removeFinalizer, hmem, horph, hup]
  · intro hup
    have hout : ensureDeletion env fr =
        ⟨if (removeManagedLabel env).success then .allOK else .error,
          (removeManagedLabel env).ops,
          fr.finalizers.filter (fun t => !(t == FinalizerSyncController)), true⟩ := by
      simp [ensureDeletion, removeFinalizer, hmem, horph, hup]
    rw [hout]
    refine ⟨rfl, filter_not_contains fr.finalizers FinalizerSyncController, rfl,
      removeManagedLabel_ops_kind env, ?_, ?_, ?_⟩
    · by_cases hsucc : (removeManagedLabel env).success <;> simp [hsucc]
    · intro hsucc
      simp [hsucc]
    · intro cs hcs hnd c hc obj hr hcache
      have hOps : opsFor (removeManagedLabel env).ops c.name =
          (hdContribution env removeLabelHandler c).1 := by
        rw [opsFor, removeManagedLabel_ops_eq, handleDeletion_ops_eq env _ cs hcs]
        exact filter_concatMap Cluster.name DispatchOp.cluster _
          (fun d a ha =>
            (hdContribution_ops_spec env _ removeLabelHandler_ops_cluster d a ha).1)
          cs c hc hnd
      dsimp only
      rw [hOps]
      by_cases hdt : obj.hasDeletionTimestamp <;>
        simp [hdContribution, removeLabelHandler, hr, hcache, hdt]

/-- C3 amended witness: with a successful host write, a ready cluster with
a non-terminating cached copy, and a failing label dispatch, the orphan
path leaves the finalizer removed and returns Error. -/
theorem C3_witness :
    (ensureDeletion envLabelFail frOrphan).tookOrphanPath = true ∧
    ((ensureDeletion envLabelFail frOrphan).persistedFinalizers).contains
      FinalizerSyncController = false ∧
    (ensureDeletion envLabelFail frOrphan).status = .error := by
  have h := C3_orphan_path_amended envLabelFail frOrphan rfl rfl
  exact ⟨h.1, (h.2.2 rfl).2.1, (h.2.2 rfl).2.2.2.2.2.1 rfl⟩


/-- C4: on the cascade path, for every ready cluster with a cached copy,
the cluster is skipped from the remaining set exactly when the copy is the
host-cluster namespace companion and itself terminating; otherwise it is
added, a copy already carrying a deletion timestamp gets no operation, and
otherwise Delete (or RemoveManagedLabel for the host-namespace companion)
is issued; and a non-empty remaining set after a clean dispatch reports
recheck-required, which ensureDeletion maps to NeedsRecheck with the
finalizer untouched. -/
theorem C4_cascade_path (env : Env) (fr : FedResource)
    (cs : List Cluster) (hcs : env.clusters = .ok cs)
    (hnd : (cs.map Cluster.name).Nodup) :
    (∀ c ∈ cs, ∀ obj, c.ready = true → env.cached c.name = .ok (some obj) →
      (fr.isNamespaceInHostCluster obj = true → obj.hasDeletionTimestamp = true →
        remainingFor (deleteFromClusters env fr).remaining c.name = [] ∧
        opsFor (deleteFromClusters env fr).ops c.name = []) ∧
      (fr.isNamespaceInHostCluster obj = false → obj.hasDeletionTimestamp = true →
        remainingFor (deleteFromClusters env fr).remaining c.name = [c.name] ∧
        opsFor (deleteFromClusters env fr).ops c.name = []) ∧
      (fr.isNamespaceInHostCluster obj = true → obj.hasDeletionTimestamp = false →
        remainingFor (deleteFromClusters env fr).remaining c.name = [c.name] ∧
        opsFor (deleteFromClusters env fr).ops c.name =
          [⟨c.name, .removeManagedLabel⟩]) ∧
      (fr.isNamespaceInHostCluster obj = false → obj.hasDeletionTimestamp = false →
        remainingFor (deleteFromClusters env fr).remaining c.name = [c.name] ∧
        opsFor (deleteFromClusters env fr).ops c.name = [⟨c.name, .delete⟩])) ∧
    (env.unmanagedWaitTimeout = false → env.unmanagedWaitOk = true →
      (∀ c ∈ cs, c.ready = true) →
      (∀ c ∈ cs, exceptIsError (env.cached c.name) = false) →
      (deleteFromClusters env fr).remaining ≠ [] →
      (deleteFromClusters env fr).result = .ok true ∧
      (deleteFromClusters env fr).finalizerRemoved = false ∧
      (deleteFromClusters env fr).persistedFinalizers = fr.finalizers ∧
      (fr.finalizers.contains FinalizerSyncController = true →
        orphanRequested fr = false →
        (ensureDeletion env fr).status = .needsRecheck ∧
        (ensureDeletion env fr).persistedFinalizers = fr.finalizers)) := by
  constructor
  · intro c hc obj hr hcache
    have hRem : remainingFor (deleteFromClusters env fr).remaining c.name =
        (hdContribution env (deleteHandler fr) c).2 := by
      rw [remainingFor, deleteFromClusters_remaining_eq,
        handleDeletion_remaining_eq env _ cs hcs]
      exact filter_concatMap Cluster.name (fun s => s) _
        (fun d a ha =>
          hdContribution_remaining_spec env _ (deleteHandler_remaining_cluster fr) d a ha)
        cs c hc hnd
    have hOps : opsFor (deleteFromClusters env fr).ops c.name =
        (hdContribution env (deleteHandler fr) c).1 := by
      rw [opsFor, deleteFromClusters_ops_eq, handleDeletion_ops_eq env _ cs hcs]
      exact filter_concatMap Cluster.name DispatchOp.cluster _
        (fun d a ha =>
          (hdContribution_ops_spec env _ (deleteHandler_ops_cluster fr) d a ha).1)
        cs c hc hnd
    refine ⟨?_, ?_, ?_, ?_⟩ <;> intro hns hdt <;> rw [hRem, hOps] <;>
      exact ⟨by simp [hdContribution, deleteHandler, hr, hcache, hns, hdt],
        by simp [hdContribution, deleteHandler, hr, hcache, hns, hdt]⟩
  · intro ht hwok hready hcache hrem
    have hclean := handleDeletion_result_clean env (deleteHandler fr) cs hcs ht hready hcache
    rw [hwok] at hclean
    have hrem2 : (handleDeletionInClusters env (deleteHandler fr)).remaining ≠ [] := by
      rw [← deleteFromClusters_remaining_eq env fr]
      exact hrem
    obtain ⟨h1, h2, h3, _⟩ := deleteFromClusters_recheck env fr hclean hrem2
    refine ⟨h1, h2, h3, ?_⟩
    intro htok horph
    have hcas := (ensureDeletion_cascade env fr htok horph).2.1 h1
    exact ⟨hcas.1, hcas.2.trans h3⟩

/-- C4 witness: one ready cluster with a non-terminating, non-companion
cached copy is added to remaining with a Delete issued, and the reconcile
outcome is NeedsRecheck with the finalizer untouched. -/
theorem C4_witness :
    remainingFor (deleteFromClusters envDelete frCascade).remaining clusterA.name =
        [clusterA.name] ∧
      opsFor (deleteFromClusters envDelete frCascade).ops clusterA.name =
        [⟨clusterA.name, .delete⟩] ∧
      (ensureDeletion envDelete frCascade).status = .needsRecheck ∧
      (ensureDeletion envDelete frCascade).persistedFinalizers =
        frCascade.finalizers := by
  have h := C4_cascade_path envDelete frCascade [clusterA] rfl (by simp [clusterA])
  have h1 := (h.1 clusterA (by simp) ⟨"x", false⟩ rfl rfl).2.2.2 rfl rfl
  have h2 := h.2 rfl rfl (by decide) (by decide) (by decide)
  exact ⟨h1.1, h1.2, (h2.2.2.2 rfl rfl).1, (h2.2.2.2 rfl rfl).2⟩


/-- C5: setPropagationStatus writes the mutated status with conflict retry
inside the 1s-poll, 5s-cap window: it returns AllOK exactly when some
attempt within the window succeeds after a prefix of conflicts each
followed by a successful re-fetch; every other outcome (set-status failure,
non-conflict write failure, re-fetch failure, window exhausted) returns
Error; and every retry merges into the object re-fetched after the
previous conflict, never into a stale base. -/
theorem C5_status_aggregator (env : StatusEnv) (obj : StatusObj) :
    ((setPropagationStatus env obj).1 = .allOK ∨
      (setPropagationStatus env obj).1 = .error) ∧
    ((setPropagationStatus env obj).1 = .allOK ↔
      ∃ k, k < maxStatusAttempts ∧
        (∀ i, i < k → env.setStatusFails i = false ∧ env.write i = .conflict ∧
          ∃ o, env.refetch i = .ok o) ∧
        env.setStatusFails k = false ∧ env.write k = .success) ∧
    (((setPropagationStatus env obj).2).head? = some obj) ∧
    (∀ i o, (((setPropagationStatus env obj).2).drop (i + 1)).head? = some o →
      env.refetch i = .ok o) ∧
    maxStatusAttempts = statusPollTimeoutSeconds / statusPollIntervalSeconds + 1 := by
  refine ⟨statusAux_ok_or_error env maxStatusAttempts 0 obj, ?_, ?_, ?_, rfl⟩
  · simpa using statusAux_allOK_iff env maxStatusAttempts 0 obj
  · exact statusAux_trace_head env maxStatusAttempts 0 obj (by norm_num [maxStatusAttempts])
  · intro i o h
    simpa using statusAux_trace_refetch env maxStatusAttempts 0 obj i o h

/-- C5 witness: with one conflict followed by a successful re-fetch and a
successful second write, the aggregator returns AllOK and the second merge
base is the re-fetched object. -/
theorem C5_witness :
    (setPropagationStatus statusEnvConflict ⟨0, false⟩).1 = .allOK ∧
    statusEnvConflict.refetch 0 = .ok ⟨7, false⟩ := by
  constructor
  · refine (C5_status_aggregator statusEnvConflict ⟨0, false⟩).2.1.mpr
      ⟨1, by norm_num [maxStatusAttempts, statusPollTimeoutSeconds,
        statusPollIntervalSeconds], ?_, rfl, rfl⟩
    intro i hi
    have hi0 : i = 0 := by omega
    subst hi0
    exact ⟨rfl, rfl, ⟨7, false⟩, rfl⟩
  · exact (C5_status_aggregator statusEnvConflict ⟨0, false⟩).2.2.2.1 0 ⟨7, false⟩ rfl

/-- C6: after the dispatch join in syncToClusters, a version-map write
failure never changes the outcome, the flow always aggregates under reason
AggregateSuccess, a dispatch timeout records OperationTimeoutError as a
non-fatal propagation error, and the status only depends on the status
aggregator. -/
theorem C6_bookkeeping_nonfatal (env : Env) (fr : FedResource)
    (cs : List Cluster) (sel : List String)
    (hcs : env.clusters = .ok cs) (hsel : fr.computePlacement cs = .ok sel) :
    (syncToClusters env fr).aggregateReason = .aggregateSuccess ∧
    (∀ b, syncToClusters { env with updateVersionsFails := b } fr =
      syncToClusters env fr) ∧
    (syncToClusters env fr).status = (setPropagationStatus env.statusEnv fr.obj).1 ∧
    (env.managedWaitTimeout = true →
      (syncToClusters env fr).recordedErrors = ["OperationTimeoutError"]) ∧
    (∀ b, (syncToClusters { env with managedWaitTimeout := b } fr).status =
      (syncToClusters env fr).status) := by
  refine ⟨?_, fun b => rfl, syncToClusters_status_eq env fr, ?_,
    fun b => (syncToClusters_status_eq { env with managedWaitTimeout := b } fr).trans
      (syncToClusters_status_eq env fr).symm⟩
  · simp [syncToClusters, hcs, hsel]
  · intro ht
    simp [syncToClusters, hcs, hsel, ht]

/-- C6 witness: with a dispatch timeout the reason is still
AggregateSuccess, the timeout is recorded, and the status is unchanged. -/
theorem C6_witness :
    (syncToClusters envTimeout frSync).aggregateReason = .aggregateSuccess ∧
    (syncToClusters envTimeout frSync).recordedErrors = ["OperationTimeoutError"] ∧
    (syncToClusters { envTimeout with updateVersionsFails := true } frSync).status =
      (setPropagationStatus envTimeout.statusEnv frSync.obj).1 := by
  have h := C6_bookkeeping_nonfatal envTimeout frSync [clusterA] (["a"]) rfl rfl
  exact ⟨h.1, h.2.2.2.1 rfl, by rw [h.2.1 true]; exact h.2.2.1⟩


/-- C7: every operation recorded in the propagation round or in any
deletion-path dispatch belongs to a ready cluster of the retrieved list,
so no Create, Update, Delete, or RemoveManagedLabel is ever recorded
against an unready cluster; and a failed readiness check always forces
deleteFromClusters into an error instead of removal evidence. -/
theorem C7_unready_never_dispatched (env : Env) (fr : FedResource)
    (cs : List Cluster) (hcs : env.clusters = .ok cs) :
    (∀ a ∈ (syncToClusters env fr).ops,
      ∃ d, d ∈ cs ∧ a.cluster = d.name ∧ d.ready = true) ∧
    (∀ a ∈ (deleteFromClusters env fr).ops,
      ∃ d, d ∈ cs ∧ a.cluster = d.name ∧ d.ready = true) ∧
    (∀ a ∈ (removeManagedLabel env).ops,
      ∃ d, d ∈ cs ∧ a.cluster = d.name ∧ d.ready = true) ∧
    (∀ c ∈ cs, c.ready = false →
      (deleteFromClusters env fr).result = .error () ∧
      (deleteFromClusters env fr).finalizerRemoved = false) := by
  refine ⟨?_, ?_, ?_, ?_⟩
  · intro a ha
    rcases hsel : fr.computePlacement cs with e | sel
    · simp [syncToClusters, hcs, hsel] at ha
    · rw [(syncToClusters_ops_eq env fr cs sel hcs hsel).1] at ha
      obtain ⟨d, hd, had⟩ := (mem_concatMap _ a cs).mp ha
      obtain ⟨h1, h2⟩ := syncDecide_ops_spec env fr sel d a had
      exact ⟨d, hd, h1, h2⟩
  · intro a ha
    rw [deleteFromClusters_ops_eq] at ha
    exact handleDeletion_ops_ready env _ cs hcs (deleteHandler_ops_cluster fr) a ha
  · intro a ha
    rw [removeManagedLabel_ops_eq] at ha
    exact handleDeletion_ops_ready env _ cs hcs removeLabelHandler_ops_cluster a ha
  · intro c hc hcr
    have hie := handleDeletion_result_unready env (deleteHandler fr) cs hcs c hc hcr
    obtain ⟨h1, h2, _⟩ := deleteFromClusters_err_untouched env fr hie
    exact ⟨h1, h2⟩

/-- C7 witness: with an unready cluster present, the cascade dispatch
errors with the finalizer untouched, and every recorded operation in the
propagation round belongs to the ready cluster. -/
theorem C7_witness :
    (deleteFromClusters envUnready frCascade).result = .error () ∧
    (deleteFromClusters envUnready frCascade).finalizerRemoved = false := by
  exact (C7_unready_never_dispatched envUnready frCascade [clusterA, clusterB] rfl).2.2.2
    clusterB (by simp) rfl

/-- C8: reconcile returns NotSynced, resolving no resource and recording
no operation, exactly when a sync precondition is unmet: cluster list not
synced, accessor not synced, the ready-cluster list unavailable, or a
ready cluster's target cache not synced. -/
theorem C8_not_synced_gate (env : Env) :
    ((reconcile env).status = .notSynced ↔ isSynced env = false) ∧
    (isSynced env = false → reconcile env = ⟨.notSynced, [], false, false, none⟩) ∧
    (isSynced env = false ↔
      env.clustersSynced = false ∨ env.accessorSynced = false ∨
      (∃ e, env.readyClusters = .error e) ∨
      (∃ rcs, env.readyClusters = .ok rcs ∧ env.targetStoreSynced rcs = false)) := by
  have hkey : isSynced env = true → (reconcile env).status ≠ .notSynced := by
    intro hs
    unfold reconcile
    rw [if_neg (by simp [hs])]
    rcases ha : env.accessor with e | ar
    · simp
    · dsimp only
      by_cases ho : ar.possibleOrphan
      · rw [if_pos ho]
        by_cases hsucc : (removeManagedLabel env).success <;> simp [hsucc]
      · rw [if_neg ho]
        rcases hfr : ar.fedResource with _ | fr
        · simp
        · dsimp only
          by_cases hdt : fr.hasDeletionTimestamp
          · rw [if_pos hdt]
            exact ensureDeletion_status_ne_notSynced env fr
          · rw [if_neg hdt]
            rcases hef : ensureFinalizer env fr with e | nf
            · simp
            · dsimp only
              rw [syncToClusters_status_eq]
              rcases statusAux_ok_or_error env.statusEnv maxStatusAttempts 0 fr.obj
                with h1 | h1 <;>
                · rw [show (setPropagationStatus env.statusEnv fr.obj).1 =
                    (setPropagationStatusAux env.statusEnv maxStatusAttempts 0
                      fr.obj).1 from rfl, h1]
                  simp
  refine ⟨⟨?_, ?_⟩, ?_, ?_⟩
  · intro h
    by_contra hns
    have hs : isSynced env = true := by revert hns; cases isSynced env <;> simp
    exact hkey hs h
  · intro h
    simp [reconcile, h]
  · intro h
    simp [reconcile, h]
  · unfold isSynced
    rcases hrc : env.readyClusters with e | rcs
    · cases hc : env.clustersSynced <;> cases hacc : env.accessorSynced <;>
        simp [hc, hacc, hrc]
    · cases hc : env.clustersSynced <;> cases hacc : env.accessorSynced <;>
        cases hts : env.targetStoreSynced rcs <;> simp [hc, hacc, hrc, hts]

/-- C8 witness: with the cluster list unsynced, reconcile returns NotSynced
having resolved nothing and dispatched nothing. -/
theorem C8_witness :
    reconcile envNotSynced = ⟨.notSynced, [], false, false, none⟩ := by
  exact (C8_not_synced_gate envNotSynced).2.1 rfl


/-- C9: on a possible-orphan signal, reconcile routes straight to managed
label removal, returning AllOK on success and Error on failure, computing
no placement, touching no finalizer, recording only RemoveManagedLabel
operations; and an absent resource with no orphan signal is an AllOK
no-op. -/
theorem C9_possible_orphan_short_circuit (env : Env)
    (hs : isSynced env = true) :
    (∀ ar, env.accessor = .ok ar → ar.possibleOrphan = true →
      (reconcile env).status =
        (if (removeManagedLabel env).success then .allOK else .error) ∧
      (reconcile env).ops = (removeManagedLabel env).ops ∧
      (∀ a ∈ (reconcile env).ops, a.op = .removeManagedLabel) ∧
      (reconcile env).placementAttempted = false ∧
      (reconcile env).persistedFinalizers = none) ∧
    (∀ ar, env.accessor = .ok ar → ar.possibleOrphan = false →
      ar.fedResource = none →
      reconcile env = ⟨.allOK, [], true, false, none⟩) := by
  constructor
  · intro ar ha ho
    have hred : reconcile env =
        ⟨if (removeManagedLabel env).success then .allOK else .error,
          (removeManagedLabel env).ops, true, false, none⟩ := by
      unfold reconcile
      rw [if_neg (by simp [hs]), ha]
      dsimp only
      rw [if_pos ho]
    rw [hred]
    exact ⟨rfl, rfl, removeManagedLabel_ops_kind env, rfl, rfl⟩
  · intro ar ha ho hfr
    unfold reconcile
    rw [if_neg (by simp [hs]), ha]
    dsimp only
    rw [if_neg (by simp [ho]), hfr]

/-- C9 witness: a possible-orphan signal in a healthy environment yields
AllOK with no placement and no finalizer write, and an absent resource is
an AllOK no-op. -/
theorem C9_witness :
    (reconcile envOrphanSignal).status = .allOK ∧
    (reconcile envOrphanSignal).placementAttempted = false ∧
    (reconcile envOrphanSignal).persistedFinalizers = none ∧
    reconcile envAllOk = ⟨.allOK, [], true, false, none⟩ := by
  have h := (C9_possible_orphan_short_circuit envOrphanSignal rfl).1 ⟨none, true⟩ rfl rfl
  have h2 := (C9_possible_orphan_short_circuit envAllOk rfl).2 ⟨none, false⟩ rfl rfl rfl
  exact ⟨h.1.trans rfl, h.2.2.2.1, h.2.2.2.2, h2⟩

/-- C10: a terminating resource carrying the finalizer takes the orphan
path exactly when its annotations map exists and binds
kubefed.k8s.io/orphan to exactly the string true; a missing map or any
other value routes to the cascading-delete path. -/
theorem C10_orphan_annotation_exact (env : Env) (fr : FedResource)
    (htok : fr.finalizers.contains FinalizerSyncController = true) :
    ((ensureDeletion env fr).tookOrphanPath = orphanRequested fr) ∧
    ((ensureDeletion env fr).tookOrphanPath = true ↔
      ∃ m, fr.annotations = some m ∧
        annotationValue m OrphanManagedResources = "true") := by
  have hmem : FinalizerSyncController ∈ fr.finalizers := List.elem_iff.mp htok
  have hflag : (ensureDeletion env fr).tookOrphanPath = orphanRequested fr := by
    by_cases horph : orphanRequested fr
    · rcases hrf : removeFinalizer env fr with e | nf <;>
        simp [ensureDeletion, hmem, horph, hrf]
    · rcases hd : (deleteFromClusters env fr).result with e | b <;>
        simp [ensureDeletion, hmem, horph, hd]
  refine ⟨hflag, ?_⟩
  rw [hflag]
  unfold orphanRequested
  rcases hann : fr.annotations with _ | m
  · simp
  · simp only [beq_iff_eq]
    constructor
    · intro h
      exact ⟨m, rfl, of_decide_eq_true (by simpa using h)⟩
    · rintro ⟨m2, hm2, hv⟩
      have : m2 = m := (Option.some.inj hm2).symm
      subst this
      simpa using hv

/-- C10 witness: the exact value true takes the orphan path, while the
capitalized value True routes to the cascade path. -/
theorem C10_witness :
    (ensureDeletion envAllOk frOrphan).tookOrphanPath = true ∧
    (ensureDeletion envAllOk frOrphanUppercase).tookOrphanPath = false := by
  constructor
  · exact (C10_orphan_annotation_exact envAllOk frOrphan rfl).2.mpr
      ⟨[(OrphanManagedResources, "true")], rfl, rfl⟩
  · exact ((C10_orphan_annotation_exact envAllOk frOrphanUppercase rfl).1).trans rfl

end SyncController
